import Mathlib

/-!
Verification of the Room Allocation Engine of the hotel-booking backend.

The engine (`bookRooms` in the booking controller) selects, from the list of
currently available rooms, a best-placed set of `numRooms` rooms under a
two-tier policy: same-floor sliding windows first, cross-floor seed-and-cluster
as a fallback.  This file embeds that code shallowly: JavaScript numbers
become `Int`, the stable `Array.prototype.sort` becomes `List.insertionSort`
(stable, structurally recursive), database rows become a `Store` record, and
the HTTP handler becomes a pure function from a store and a request to a
result together with the updated store.
-/

/-- Status column of the rooms table: `'booked'` or `'not-booked'`. -/
inductive RStatus
  | booked
  | notBooked
deriving DecidableEq, Repr

/-- A row of the rooms table, as consumed by the allocation engine. -/
structure SRoom where
  roomNumber : Int
  floor : Int
  position : Int
  basePrice : Int
  status : RStatus
deriving DecidableEq, Repr

/-- A row of the bookings table, as created by `bookRooms`. -/
structure BookingRec where
  userId : Int
  rooms : List Int
  totalRooms : Int
  travelTime : Int
  totalPrice : Int
  checkInDate : Int
  checkOutDate : Int
  status : String
deriving DecidableEq, Repr

/-- The persistent state touched by `bookRooms`: the rooms table and the
bookings table. -/
structure Store where
  rooms : List SRoom
  bookings : List BookingRec
deriving DecidableEq, Repr

/-- The database `ORDER BY floor ASC, position ASC` comparison, and also the
comparator used inside `calculateTotalPathCost`. -/
def roomLe (a b : SRoom) : Prop :=
  a.floor < b.floor ∨ (a.floor = b.floor ∧ a.position ≤ b.position)

instance : DecidableRel roomLe := fun a b =>
  inferInstanceAs (Decidable (_ ∨ _))

instance : IsTotal SRoom roomLe where
  total a b := by
    rcases lt_trichotomy a.floor b.floor with h | h | h
    · exact Or.inl (Or.inl h)
    · rcases le_total a.position b.position with hp | hp
      · exact Or.inl (Or.inr ⟨h, hp⟩)
      · exact Or.inr (Or.inr ⟨h.symm, hp⟩)
    · exact Or.inr (Or.inl h)

instance : IsTrans SRoom roomLe where
  trans a b c hab hbc := by
    rcases hab with h1 | ⟨h1, p1⟩ <;> rcases hbc with h2 | ⟨h2, p2⟩
    · exact Or.inl (h1.trans h2)
    · exact Or.inl (h2 ▸ h1)
    · exact Or.inl (h1 ▸ h2)
    · exact Or.inr ⟨h1.trans h2, p1.trans p2⟩

/-- Position order within one floor. -/
def posLe (a b : SRoom) : Prop := a.position ≤ b.position

instance : DecidableRel posLe := fun a b =>
  inferInstanceAs (Decidable (_ ≤ _))

/-- The comparator `(a, b) => a.dist - b.dist` used on the Tier-2 neighbor
pairs. -/
def distLe (a b : SRoom × Int) : Prop := a.2 ≤ b.2

instance : DecidableRel distLe := fun a b =>
  inferInstanceAs (Decidable (_ ≤ _))

instance : IsTotal (SRoom × Int) distLe where
  total a b := le_total a.2 b.2

instance : IsTrans (SRoom × Int) distLe where
  trans _ _ _ hab hbc := le_trans hab hbc

/-- `getTravelTime(r1, r2)`: horizontal distance on one floor, otherwise walk
to the lift, ride, walk from the lift. -/
def getTravelTime (r1 r2 : SRoom) : Int :=
  if r1.floor = r2.floor then |r1.position - r2.position|
  else (r1.position - 1) + (r2.position - 1) + |r1.floor - r2.floor| * 2

/-- Sum of consecutive-pair travel times along a list of rooms. -/
def pathSum : List SRoom → Int
  | [] => 0
  | [_] => 0
  | a :: b :: t => getTravelTime a b + pathSum (b :: t)

/-- The `sort((a, b) => ...)` call inside `calculateTotalPathCost`, and the
database ordering of the available-rooms query: stable sort by floor then
position. -/
def sortRooms (l : List SRoom) : List SRoom :=
  l.insertionSort roomLe

/-- `calculateTotalPathCost(rooms)`: sort by floor then position and sum
consecutive-pair travel times. -/
def calculateTotalPathCost (rooms : List SRoom) : Int :=
  if rooms.length ≤ 1 then 0
  else pathSum (sortRooms rooms)

/-- The floors of `roomsByFloor`, in the order `for (const floor in ...)`
visits them: JavaScript enumerates integer-like keys in ascending numeric
order. -/
def floorsSorted (rooms : List SRoom) : List Int :=
  ((rooms.map (fun r => r.floor)).dedup).insertionSort (· ≤ ·)

/-- `roomsByFloor[f]`: the available rooms of floor `f`, in input order. -/
def floorGroup (rooms : List SRoom) (f : Int) : List SRoom :=
  rooms.filter (fun r => decide (r.floor = f))

/-- The Tier-1 sliding windows `floorRooms.slice(i, i + numRooms)` for
`0 ≤ i ≤ floorRooms.length - numRooms`. -/
def windowsList (n : Nat) (g : List SRoom) : List (List SRoom) :=
  (List.range (g.length - n + 1)).map (fun i => (g.drop i).take n)

/-- Position of the first element of a window (0 for the empty window). -/
def headPos (l : List SRoom) : Int :=
  l.head?.elim 0 (fun r => r.position)

/-- Position of the last element of a window (0 for the empty window). -/
def lastPos (l : List SRoom) : Int :=
  l.getLast?.elim 0 (fun r => r.position)

/-- The Tier-1 window score
`subset[subset.length - 1].position - subset[0].position`. -/
def tier1score (subset : List SRoom) : Int :=
  lastPos subset - headPos subset

/-- All Tier-1 candidate windows, in iteration order: floors ascending, then
window start index ascending.  A floor contributes windows only when it has at
least `n` available rooms. -/
def tier1Candidates (rooms : List SRoom) (n : Nat) : List (List SRoom) :=
  (floorsSorted rooms).flatMap (fun f =>
    let g := floorGroup rooms f
    if n ≤ g.length then windowsList n g else [])

/-- One step of the running-minimum loop: `none` plays the role of the
initial `bestScore = Infinity`, and a candidate replaces the current best
exactly when its score is strictly smaller. -/
def pickStep (score : List SRoom → Int) (best : Option (List SRoom × Int))
    (c : List SRoom) : Option (List SRoom × Int) :=
  match best with
  | none => some (c, score c)
  | some p => if score c < p.2 then some (c, score c) else some p

/-- The running `if (score < bestScore) ...` loop, starting from
`bestScore = Infinity`: returns the first candidate attaining the minimum
score, with its score, or `none` when the candidate list is empty. -/
def pickMinBy (score : List SRoom → Int) (cs : List (List SRoom)) :
    Option (List SRoom × Int) :=
  cs.foldl (pickStep score) none

/-- The Tier-2 cluster grown from one seed: rank every available room by
travel time from the seed (stable sort) and take the closest `n`. -/
def seedCluster (rooms : List SRoom) (n : Nat) (seed : SRoom) : List SRoom :=
  ((((rooms.map (fun r => (r, getTravelTime seed r))).insertionSort
    distLe).map Prod.fst).take n)

/-- All Tier-2 candidate clusters, one per seed in input order, keeping only
full clusters (`candidates.length === numRooms`). -/
def tier2Clusters (rooms : List SRoom) (n : Nat) : List (List SRoom) :=
  (rooms.map (seedCluster rooms n)).filter (fun c => decide (c.length = n))

/-- Which tier produced the winning candidate. -/
inductive Tier
  | sameFloor
  | crossFloor
deriving DecidableEq, Repr

/-- The selection phase of `bookRooms`, with the winning tier made explicit:
Tier 1 (same-floor windows) runs first; Tier 2 (cross-floor clusters) runs
only when Tier 1 selected nothing. -/
def allocateT (rooms : List SRoom) (n : Nat) :
    Option (List SRoom × Int × Tier) :=
  match pickMinBy tier1score (tier1Candidates rooms n) with
  | some p => some (p.1, p.2, Tier.sameFloor)
  | none =>
    (pickMinBy calculateTotalPathCost (tier2Clusters rooms n)).map
      (fun p => (p.1, p.2, Tier.crossFloor))

/-- The selection phase of `bookRooms`: the selected rooms and the final
`bestScore`, or `none` when no candidate was found. -/
def allocate (rooms : List SRoom) (n : Nat) : Option (List SRoom × Int) :=
  (allocateT rooms n).map (fun p => (p.1, p.2.1))

/-- Outcome of one `bookRooms` request, in the order the handler can produce
them. -/
inductive BookResult
  | invalidCount
  | notEnoughRooms
  | noSuitableSet
  | success (roomNumbers : List Int) (travelTime : Int) (totalPrice : Int)
deriving DecidableEq, Repr

/-- HTTP status attached to each outcome: every rejection is a 400, a
successful booking is a 201. -/
def statusCode : BookResult → Nat
  | .success _ _ _ => 201
  | _ => 400

/-- Ceiling division of `a` by a positive `b`, as `Math.ceil(a / b)` computes
it on exact integer inputs. -/
def ceilDiv (a b : Int) : Int := -((-a).fdiv b)

/-- Milliseconds per day, the divisor `1000 * 60 * 60 * 24`. -/
def msPerDay : Int := 86400000

/-- `Math.ceil((checkOut - checkIn) / msPerDay) || 1`: the `|| 1` replaces a
result of `0` (a falsy value) by `1` and leaves every other value alone. -/
def jsNights (checkIn checkOut : Int) : Int :=
  let d := ceilDiv (checkOut - checkIn) msPerDay
  if d = 0 then 1 else d

/-- The available-rooms query: rows with status `'not-booked'`, ordered by
floor ascending then position ascending. -/
def availableOf (s : Store) : List SRoom :=
  sortRooms (s.rooms.filter (fun r => decide (r.status = RStatus.notBooked)))

/-- The `Room.update({ status: 'booked' }, { where: ... })` effect on one
row. -/
def markBooked (nums : List Int) (r : SRoom) : SRoom :=
  if r.roomNumber ∈ nums then { r with status := RStatus.booked } else r

/-- The `bookRooms` handler: validate the count, compute nights, fetch the
available rooms, run the two-tier selection, and on success create the
booking row and mark the selected rooms booked.  Returns the outcome and the
updated store. -/
def bookRooms (s : Store) (userId numRooms checkIn checkOut : Int) :
    BookResult × Store :=
  if numRooms < 1 ∨ 5 < numRooms then (BookResult.invalidCount, s)
  else
    let nights := jsNights checkIn checkOut
    let avail := availableOf s
    if avail.length < numRooms.toNat then (BookResult.notEnoughRooms, s)
    else
      match allocate avail numRooms.toNat with
      | none => (BookResult.noSuitableSet, s)
      | some (sel, cost) =>
        let nums := sel.map (fun r => r.roomNumber)
        let price := numRooms * (sel.head?.elim 0 (fun r => r.basePrice)) * nights
        (BookResult.success nums cost price,
          { rooms := s.rooms.map (markBooked nums),
            bookings := s.bookings ++
              [{ userId := userId, rooms := nums, totalRooms := numRooms,
                 travelTime := cost, totalPrice := price,
                 checkInDate := checkIn, checkOutDate := checkOut,
                 status := "confirmed" }] })

/-- Maximum of the `position` fields of a list of rooms (spec-side notion,
`max(position)` over a candidate; 0 for the empty list). -/
def maxPos : List SRoom → Int
  | [] => 0
  | r :: rs =>
    match rs with
    | [] => r.position
    | s :: t => max r.position (maxPos (s :: t))

/-- Minimum of the `position` fields of a list of rooms (spec-side notion,
`min(position)` over a candidate; 0 for the empty list). -/
def minPos : List SRoom → Int
  | [] => 0
  | r :: rs =>
    match rs with
    | [] => r.position
    | s :: t => min r.position (minPos (s :: t))

/-- An available standard room, as the seeder creates it. -/
def mkAvail (num f p : Int) : SRoom :=
  { roomNumber := num, floor := f, position := p, basePrice := 100,
    status := RStatus.notBooked }

/-- Scenario B of the spec: floor 1 has rooms 104-110 available (101-103 are
booked), floor 2 has rooms 201-210 all available. -/
def scenarioB : List SRoom :=
  [mkAvail 104 1 4, mkAvail 105 1 5, mkAvail 106 1 6, mkAvail 107 1 7,
   mkAvail 108 1 8, mkAvail 109 1 9, mkAvail 110 1 10,
   mkAvail 201 2 1, mkAvail 202 2 2, mkAvail 203 2 3, mkAvail 204 2 4,
   mkAvail 205 2 5, mkAvail 206 2 6, mkAvail 207 2 7, mkAvail 208 2 8,
   mkAvail 209 2 9, mkAvail 210 2 10]

/-- Scenario B as a store (every listed room is available). -/
def scenarioBStore : Store :=
  { rooms := scenarioB, bookings := [] }

/-- The window the engine actually selects in Scenario B. -/
def scenarioBSelected : List SRoom :=
  [mkAvail 104 1 4, mkAvail 105 1 5, mkAvail 106 1 6, mkAvail 107 1 7,
   mkAvail 108 1 8]

/-- A one-room store used for concrete evaluations. -/
def oneRoomStore : Store :=
  { rooms := [mkAvail 101 1 1], bookings := [] }

/-- A store with no rooms at all. -/
def emptyStore : Store :=
  { rooms := [], bookings := [] }

/-!
### Helper lemmas about the running-minimum loop
-/

theorem foldl_pickStep_some (score : List SRoom → Int) :
    ∀ (cs : List (List SRoom)) (p : List SRoom × Int),
      ∃ q, cs.foldl (pickStep score) (some p) = some q ∧
        (q = p ∨ (q.1 ∈ cs ∧ q.2 = score q.1)) := by
  intro cs
  induction cs with
  | nil => exact fun p => ⟨p, rfl, Or.inl rfl⟩
  | cons c cs ih =>
    intro p
    have hstep : pickStep score (some p) c =
        if score c < p.2 then some (c, score c) else some p := rfl
    by_cases h : score c < p.2
    · rcases ih (c, score c) with ⟨q, hq, hcase⟩
      refine ⟨q, ?_, ?_⟩
      · simpa [List.foldl_cons, hstep, if_pos h] using hq
      · rcases hcase with rfl | ⟨hmem, hsc⟩
        · exact Or.inr ⟨List.mem_cons_self _ _, rfl⟩
        · exact Or.inr ⟨List.mem_cons_of_mem _ hmem, hsc⟩
    · rcases ih p with ⟨q, hq, hcase⟩
      refine ⟨q, ?_, ?_⟩
      · simpa [List.foldl_cons, hstep, if_neg h] using hq
      · rcases hcase with rfl | ⟨hmem, hsc⟩
        · exact Or.inl rfl
        · exact Or.inr ⟨List.mem_cons_of_mem _ hmem, hsc⟩

theorem pickMinBy_eq_none_iff (score : List SRoom → Int)
    (cs : List (List SRoom)) : pickMinBy score cs = none ↔ cs = [] := by
  constructor
  · intro h
    cases cs with
    | nil => rfl
    | cons c cs =>
      exfalso
      rcases foldl_pickStep_some score cs (c, score c) with ⟨q, hq, _⟩
      rw [pickMinBy, List.foldl_cons] at h
      have : pickStep score none c = some (c, score c) := rfl
      rw [this, hq] at h
      exact Option.noConfusion h
  · intro h; subst h; rfl

theorem pickMinBy_some_spec (score : List SRoom → Int)
    (cs : List (List SRoom)) (q : List SRoom × Int)
    (h : pickMinBy score cs = some q) : q.1 ∈ cs ∧ q.2 = score q.1 := by
  cases cs with
  | nil => exact Option.noConfusion h
  | cons c cs =>
    rw [pickMinBy, List.foldl_cons] at h
    have hz : pickStep score none c = some (c, score c) := rfl
    rw [hz] at h
    rcases foldl_pickStep_some score cs (c, score c) with ⟨q', hq', hcase⟩
    rw [hq'] at h
    cases h
    rcases hcase with rfl | ⟨hmem, hsc⟩
    · exact ⟨List.mem_cons_self _ _, rfl⟩
    · exact ⟨List.mem_cons_of_mem _ hmem, hsc⟩

theorem pickMinBy_isSome_of_ne_nil (score : List SRoom → Int)
    (cs : List (List SRoom)) (h : cs ≠ []) :
    ∃ q, pickMinBy score cs = some q := by
  rcases ho : pickMinBy score cs with _ | q
  · exact absurd ((pickMinBy_eq_none_iff score cs).mp ho) h
  · exact ⟨q, rfl⟩

/-!
### Helper lemmas about Tier-1 windows and grouping
-/

theorem mem_windowsList {n : Nat} {g : List SRoom} {w : List SRoom}
    (hw : w ∈ windowsList n g) :
    ∃ i, i < g.length - n + 1 ∧ w = (g.drop i).take n := by
  rcases List.mem_map.mp hw with ⟨i, hi, rfl⟩
  exact ⟨i, List.mem_range.mp hi, rfl⟩

theorem windowsList_length {n : Nat} {g : List SRoom} {w : List SRoom}
    (hn : n ≤ g.length) (hw : w ∈ windowsList n g) : w.length = n := by
  rcases mem_windowsList hw with ⟨i, hi, rfl⟩
  rw [List.length_take, List.length_drop]
  omega

theorem windowsList_sublist {n : Nat} {g : List SRoom} {w : List SRoom}
    (hw : w ∈ windowsList n g) : List.Sublist w g := by
  rcases mem_windowsList hw with ⟨i, _, rfl⟩
  exact List.Sublist.trans (List.take_sublist n _) (List.drop_sublist i g)

theorem windowsList_ne_nil {n : Nat} {g : List SRoom} (hn : n ≤ g.length) :
    windowsList n g ≠ [] := by
  have : (windowsList n g).length = g.length - n + 1 := by
    rw [windowsList, List.length_map, List.length_range]
  intro h
  rw [h] at this
  simp at this

theorem floorGroup_floor_eq {rooms : List SRoom} {f : Int} {r : SRoom}
    (h : r ∈ floorGroup rooms f) : r.floor = f := by
  have := List.of_mem_filter h
  exact of_decide_eq_true this

theorem floorGroup_subset {rooms : List SRoom} {f : Int} {r : SRoom}
    (h : r ∈ floorGroup rooms f) : r ∈ rooms :=
  List.mem_of_mem_filter h

theorem mem_floorsSorted {rooms : List SRoom} {f : Int} :
    f ∈ floorsSorted rooms ↔ f ∈ rooms.map (fun r => r.floor) := by
  rw [floorsSorted, List.mem_insertionSort, List.mem_dedup]

theorem mem_tier1Candidates {rooms : List SRoom} {n : Nat} {w : List SRoom}
    (hw : w ∈ tier1Candidates rooms n) :
    ∃ f, n ≤ (floorGroup rooms f).length ∧
      w ∈ windowsList n (floorGroup rooms f) := by
  rcases List.mem_flatMap.mp hw with ⟨f, _, hwf⟩
  by_cases hn : n ≤ (floorGroup rooms f).length
  · rw [if_pos hn] at hwf
    exact ⟨f, hn, hwf⟩
  · rw [if_neg hn] at hwf
    exact absurd hwf (List.not_mem_nil w)

theorem tier1Candidates_ne_nil {rooms : List SRoom} {n : Nat} {f : Int}
    (h1 : 1 ≤ n) (hf : n ≤ (floorGroup rooms f).length) :
    tier1Candidates rooms n ≠ [] := by
  have hne : floorGroup rooms f ≠ [] := by
    intro h
    rw [h] at hf
    simp only [List.length_nil] at hf
    omega
  have hmemf : f ∈ floorsSorted rooms := by
    rcases List.exists_mem_of_ne_nil _ hne with ⟨r, hr⟩
    exact mem_floorsSorted.mpr
      (List.mem_map.mpr ⟨r, floorGroup_subset hr, floorGroup_floor_eq hr⟩)
  rcases List.exists_mem_of_ne_nil _ (windowsList_ne_nil hf) with ⟨w, hwmem⟩
  apply List.ne_nil_of_mem (a := w)
  apply List.mem_flatMap.mpr
  exact ⟨f, hmemf, by rw [if_pos hf]; exact hwmem⟩

theorem tier1Candidates_eq_nil_of_short {rooms : List SRoom} {n : Nat}
    (h : rooms.length < n) : tier1Candidates rooms n = [] := by
  rw [List.eq_nil_iff_forall_not_mem]
  intro w hw
  rcases mem_tier1Candidates hw with ⟨f, hf, _⟩
  have := List.length_filter_le (fun r => decide (r.floor = f)) rooms
  rw [floorGroup] at hf
  omega

/-!
### Helper lemmas about Tier-2 clusters
-/

theorem seedCluster_length (rooms : List SRoom) (n : Nat) (seed : SRoom) :
    (seedCluster rooms n seed).length = min n rooms.length := by
  rw [seedCluster, List.length_take, List.length_map,
    List.length_insertionSort, List.length_map]

theorem seedCluster_sublist_of_perm (rooms : List SRoom) (n : Nat)
    (seed : SRoom) :
    ∃ l, List.Perm rooms l ∧ List.Sublist (seedCluster rooms n seed) l := by
  refine ⟨((rooms.map (fun r => (r, getTravelTime seed r))).insertionSort
    distLe).map Prod.fst, ?_, List.take_sublist n _⟩
  have h1 : List.Perm
      ((rooms.map (fun r => (r, getTravelTime seed r))).insertionSort distLe)
      (rooms.map (fun r => (r, getTravelTime seed r))) :=
    List.perm_insertionSort distLe _
  have h2 := h1.map Prod.fst
  have h3 : (rooms.map (fun r => (r, getTravelTime seed r))).map Prod.fst =
      rooms := by
    rw [List.map_map]
    exact List.map_id rooms
  rw [h3] at h2
  exact h2.symm

theorem mem_tier2Clusters {rooms : List SRoom} {n : Nat} {c : List SRoom}
    (hc : c ∈ tier2Clusters rooms n) :
    c.length = n ∧ ∃ seed, c = seedCluster rooms n seed := by
  have hmem := List.mem_of_mem_filter hc
  have hlen := List.of_mem_filter hc
  rcases List.mem_map.mp hmem with ⟨seed, _, rfl⟩
  exact ⟨of_decide_eq_true hlen, seed, rfl⟩

theorem tier2Clusters_eq_nil_of_short {rooms : List SRoom} {n : Nat}
    (h : rooms.length < n) : tier2Clusters rooms n = [] := by
  rw [List.eq_nil_iff_forall_not_mem]
  intro c hc
  rcases mem_tier2Clusters hc with ⟨hlen, seed, rfl⟩
  rw [seedCluster_length] at hlen
  omega

theorem tier2Clusters_ne_nil {rooms : List SRoom} {n : Nat}
    (h1 : 1 ≤ n) (h : n ≤ rooms.length) : tier2Clusters rooms n ≠ [] := by
  have hne : rooms ≠ [] := by
    intro hnil
    rw [hnil] at h
    simp only [List.length_nil] at h
    omega
  rcases List.exists_mem_of_ne_nil _ hne with ⟨seed, hseed⟩
  apply List.ne_nil_of_mem (a := seedCluster rooms n seed)
  apply List.mem_filter.mpr
  refine ⟨List.mem_map.mpr ⟨seed, hseed, rfl⟩, ?_⟩
  rw [decide_eq_true_iff, seedCluster_length]
  omega

/-!
### Helper lemmas about sorted position lists
-/

theorem lastPos_cons_cons (a b : SRoom) (t : List SRoom) :
    lastPos (a :: b :: t) = lastPos (b :: t) := by
  rw [lastPos, lastPos, List.getLast?_cons_cons]

theorem lastPos_mem : ∀ (l : List SRoom), l ≠ [] →
    ∃ r ∈ l, lastPos l = r.position := by
  intro l hl
  refine ⟨l.getLast hl, List.getLast_mem hl, ?_⟩
  rw [lastPos, List.getLast?_eq_getLast l hl]
  rfl

theorem sorted_le_lastPos : ∀ {l : List SRoom}, l.Pairwise posLe →
    ∀ r ∈ l, r.position ≤ lastPos l
  | [], _, r, hr => absurd hr (List.not_mem_nil r)
  | [a], _, r, hr => by
    rcases List.mem_singleton.mp hr with rfl
    rw [lastPos]
    rfl
  | a :: b :: t, h, r, hr => by
    have hpair := List.pairwise_cons.mp h
    rw [lastPos_cons_cons]
    rcases List.mem_cons.mp hr with rfl | hr2
    · rcases lastPos_mem (b :: t) (List.cons_ne_nil b t) with ⟨s, hs, hps⟩
      rw [hps]
      exact hpair.1 s hs
    · exact sorted_le_lastPos hpair.2 r hr2

theorem sorted_headPos_le {l : List SRoom} (h : l.Pairwise posLe) :
    ∀ r ∈ l, headPos l ≤ r.position := by
  cases l with
  | nil => intro r hr; exact absurd hr (List.not_mem_nil r)
  | cons a t =>
    intro r hr
    have hpair := List.pairwise_cons.mp h
    rcases List.mem_cons.mp hr with rfl | hr2
    · rw [headPos]; rfl
    · exact hpair.1 r hr2

theorem maxPos_spec : ∀ (l : List SRoom), l ≠ [] →
    (∃ r ∈ l, maxPos l = r.position) ∧ ∀ r ∈ l, r.position ≤ maxPos l
  | [], h => absurd rfl h
  | [a], _ => by
    constructor
    · exact ⟨a, List.mem_singleton_self a, rfl⟩
    · intro r hr
      rcases List.mem_singleton.mp hr with rfl
      exact le_refl _
  | a :: b :: t, _ => by
    have hmax : maxPos (a :: b :: t) = max a.position (maxPos (b :: t)) := rfl
    rcases maxPos_spec (b :: t) (List.cons_ne_nil b t) with ⟨⟨s, hs, hps⟩, hub⟩
    constructor
    · rcases le_total a.position (maxPos (b :: t)) with hle | hge
      · exact ⟨s, List.mem_cons_of_mem a hs, by rw [hmax, max_eq_right hle, hps]⟩
      · exact ⟨a, List.mem_cons_self a _, by rw [hmax, max_eq_left hge]⟩
    · intro r hr
      rcases List.mem_cons.mp hr with rfl | hr2
      · rw [hmax]; exact le_max_left _ _
      · rw [hmax]; exact le_trans (hub r hr2) (le_max_right _ _)

theorem minPos_spec : ∀ (l : List SRoom), l ≠ [] →
    (∃ r ∈ l, minPos l = r.position) ∧ ∀ r ∈ l, minPos l ≤ r.position
  | [], h => absurd rfl h
  | [a], _ => by
    constructor
    · exact ⟨a, List.mem_singleton_self a, rfl⟩
    · intro r hr
      rcases List.mem_singleton.mp hr with rfl
      exact le_refl _
  | a :: b :: t, _ => by
    have hmin : minPos (a :: b :: t) = min a.position (minPos (b :: t)) := rfl
    rcases minPos_spec (b :: t) (List.cons_ne_nil b t) with ⟨⟨s, hs, hps⟩, hlb⟩
    constructor
    · rcases le_total a.position (minPos (b :: t)) with hle | hge
      · exact ⟨a, List.mem_cons_self a _, by rw [hmin, min_eq_left hle]⟩
      · exact ⟨s, List.mem_cons_of_mem a hs, by rw [hmin, min_eq_right hge, hps]⟩
    · intro r hr
      rcases List.mem_cons.mp hr with rfl | hr2
      · rw [hmin]; exact min_le_left _ _
      · rw [hmin]; exact le_trans (min_le_right _ _) (hlb r hr2)

theorem maxPos_of_sorted {l : List SRoom} (h : l.Pairwise posLe) :
    maxPos l = lastPos l := by
  cases hl : l with
  | nil => rfl
  | cons a t =>
    subst hl
    have hne : a :: t ≠ [] := List.cons_ne_nil a t
    rcases maxPos_spec _ hne with ⟨⟨s, hs, hps⟩, hub⟩
    rcases lastPos_mem _ hne with ⟨s2, hs2, hps2⟩
    apply le_antisymm
    · rw [hps]
      exact sorted_le_lastPos h s hs
    · rw [hps2]
      exact hub s2 hs2

theorem minPos_of_sorted {l : List SRoom} (h : l.Pairwise posLe) :
    minPos l = headPos l := by
  cases hl : l with
  | nil => rfl
  | cons a t =>
    subst hl
    have hne : a :: t ≠ [] := List.cons_ne_nil a t
    rcases minPos_spec _ hne with ⟨⟨s, hs, hps⟩, hlb⟩
    have hhead : ∃ r ∈ a :: t, headPos (a :: t) = r.position :=
      ⟨a, List.mem_cons_self a t, rfl⟩
    rcases hhead with ⟨s2, hs2, hps2⟩
    apply le_antisymm
    · rw [hps2]
      exact hlb s2 hs2
    · rw [hps]
      exact sorted_headPos_le h s hs

theorem tier1score_eq_spread_of_sorted {w : List SRoom}
    (h : w.Pairwise posLe) : tier1score w = maxPos w - minPos w := by
  rw [tier1score, maxPos_of_sorted h, minPos_of_sorted h]

/-!
### Path cost on one floor
-/

theorem getTravelTime_sameFloor_sorted {a b : SRoom}
    (hf : a.floor = b.floor) (hp : a.position ≤ b.position) :
    getTravelTime a b = b.position - a.position := by
  rw [getTravelTime, if_pos hf, abs_sub_comm,
    abs_of_nonneg (by omega : (0 : Int) ≤ b.position - a.position)]

theorem pathSum_telescope : ∀ {w : List SRoom} {f : Int},
    (∀ r ∈ w, r.floor = f) → w.Pairwise posLe →
    pathSum w = lastPos w - headPos w
  | [], _, _, _ => by rw [pathSum, lastPos, headPos]; rfl
  | [a], _, _, _ => by
    rw [pathSum, lastPos, headPos]
    simp
  | a :: b :: t, f, hfl, hp => by
    have hpair := List.pairwise_cons.mp hp
    have hab : a.position ≤ b.position :=
      hpair.1 b (List.mem_cons_self b t)
    have haf : a.floor = f := hfl a (List.mem_cons_self a _)
    have hbf : b.floor = f := hfl b (List.mem_cons_of_mem a (List.mem_cons_self b t))
    have hfl2 : ∀ r ∈ b :: t, r.floor = f := fun r hr =>
      hfl r (List.mem_cons_of_mem a hr)
    have ih := pathSum_telescope hfl2 hpair.2
    rw [pathSum, ih, lastPos_cons_cons,
      getTravelTime_sameFloor_sorted (haf.trans hbf.symm) hab]
    have hhead : headPos (a :: b :: t) = a.position := rfl
    have hhead2 : headPos (b :: t) = b.position := rfl
    rw [hhead, hhead2]
    ring

/-!
### From global sortedness to per-floor position sortedness
-/

theorem floorGroup_pairwise {rooms : List SRoom} {f : Int}
    (hs : rooms.Pairwise roomLe) : (floorGroup rooms f).Pairwise posLe := by
  have h1 : (floorGroup rooms f).Pairwise roomLe :=
    List.Pairwise.filter _ hs
  apply List.Pairwise.imp_of_mem ?_ h1
  intro a b ha hb hab
  have haf : a.floor = f := floorGroup_floor_eq ha
  have hbf : b.floor = f := floorGroup_floor_eq hb
  rcases hab with hlt | ⟨_, hle⟩
  · rw [haf, hbf] at hlt
    exact absurd hlt (lt_irrefl f)
  · exact hle

theorem pairwise_roomLe_of_sameFloor {w : List SRoom} {f : Int}
    (hfl : ∀ r ∈ w, r.floor = f) (hp : w.Pairwise posLe) :
    w.Pairwise roomLe := by
  apply List.Pairwise.imp_of_mem ?_ hp
  intro a b ha hb hab
  exact Or.inr ⟨(hfl a ha).trans (hfl b hb).symm, hab⟩

theorem sortRooms_eq_self {w : List SRoom} (h : w.Pairwise roomLe) :
    sortRooms w = w :=
  List.Sorted.insertionSort_eq h

theorem calculateTotalPathCost_sameFloor_sorted {w : List SRoom} {f : Int}
    (hfl : ∀ r ∈ w, r.floor = f) (hp : w.Pairwise posLe) :
    calculateTotalPathCost w = tier1score w := by
  rw [calculateTotalPathCost]
  by_cases hlen : w.length ≤ 1
  · rw [if_pos hlen]
    match w, hlen with
    | [], _ => rw [tier1score, lastPos, headPos]; rfl
    | [a], _ => rw [tier1score, lastPos, headPos]; simp
  · rw [if_neg hlen, sortRooms_eq_self (pairwise_roomLe_of_sameFloor hfl hp),
      pathSum_telescope hfl hp, tier1score]

/-!
### Structure of the two-tier search
-/

theorem allocate_eq_some_iff {rooms : List SRoom} {n : Nat}
    {sel : List SRoom} {cost : Int} :
    allocate rooms n = some (sel, cost) ↔
      ∃ t, allocateT rooms n = some (sel, cost, t) := by
  constructor
  · intro h
    rcases ha : allocateT rooms n with _ | ⟨s, c, t⟩
    · rw [allocate, ha] at h
      exact Option.noConfusion h
    · rw [allocate, ha, Option.map_some'] at h
      cases h
      exact ⟨t, rfl⟩
  · intro ⟨t, ht⟩
    rw [allocate, ht, Option.map_some']

theorem allocateT_sameFloor_spec {rooms : List SRoom} {n : Nat}
    {sel : List SRoom} {cost : Int}
    (h : allocateT rooms n = some (sel, cost, Tier.sameFloor)) :
    sel ∈ tier1Candidates rooms n ∧ cost = tier1score sel := by
  rcases hp : pickMinBy tier1score (tier1Candidates rooms n) with _ | q
  · rw [allocateT, hp] at h
    rcases ho : pickMinBy calculateTotalPathCost (tier2Clusters rooms n) with
      _ | q2
    · rw [ho] at h
      exact Option.noConfusion h
    · rw [ho, Option.map_some'] at h
      cases h
  · rw [allocateT, hp] at h
    cases h
    exact pickMinBy_some_spec _ _ q hp

theorem allocateT_crossFloor_spec {rooms : List SRoom} {n : Nat}
    {sel : List SRoom} {cost : Int}
    (h : allocateT rooms n = some (sel, cost, Tier.crossFloor)) :
    pickMinBy tier1score (tier1Candidates rooms n) = none ∧
      sel ∈ tier2Clusters rooms n ∧ cost = calculateTotalPathCost sel := by
  rcases hp : pickMinBy tier1score (tier1Candidates rooms n) with _ | q
  · rw [allocateT, hp] at h
    rcases ho : pickMinBy calculateTotalPathCost (tier2Clusters rooms n) with
      _ | q2
    · rw [ho] at h
      exact Option.noConfusion h
    · rw [ho, Option.map_some'] at h
      cases h
      exact ⟨rfl, pickMinBy_some_spec _ _ q2 ho⟩
  · rw [allocateT, hp] at h
    cases h

theorem allocate_isSome_of_enough {rooms : List SRoom} {n : Nat}
    (h1 : 1 ≤ n) (hlen : n ≤ rooms.length) :
    ∃ sel cost t, allocateT rooms n = some (sel, cost, t) ∧ sel.length = n := by
  rcases hp : pickMinBy tier1score (tier1Candidates rooms n) with _ | q
  · have hne := tier2Clusters_ne_nil h1 hlen
    rcases pickMinBy_isSome_of_ne_nil calculateTotalPathCost _ hne with ⟨q2, hq2⟩
    have hspec := pickMinBy_some_spec _ _ q2 hq2
    have hlen2 := (mem_tier2Clusters hspec.1).1
    refine ⟨q2.1, q2.2, Tier.crossFloor, ?_, hlen2⟩
    simp only [allocateT, hp, hq2, Option.map_some']
  · have hspec := pickMinBy_some_spec _ _ q hp
    rcases mem_tier1Candidates hspec.1 with ⟨f, hf, hw⟩
    refine ⟨q.1, q.2, Tier.sameFloor, ?_, windowsList_length hf hw⟩
    simp only [allocateT, hp]

/-- C1: for every `n` with `1 ≤ n ≤ 5`, the selection phase returns the
infeasible outcome (`none`) iff the available-room list has fewer than `n`
rooms, and for every list with at least `n` rooms it returns a candidate of
exactly `n` rooms together with a (finite, `Int`-valued) cost — the
post-Tier-2 failure branch is never reached. -/
theorem allocate_feasibility (rooms : List SRoom) (n : Nat)
    (h1 : 1 ≤ n) (h5 : n ≤ 5) :
    (allocate rooms n = none ↔ rooms.length < n) ∧
    (n ≤ rooms.length →
      ∃ sel cost, allocate rooms n = some (sel, cost) ∧ sel.length = n) := by
  have hsome : n ≤ rooms.length →
      ∃ sel cost, allocate rooms n = some (sel, cost) ∧ sel.length = n := by
    intro hlen
    rcases allocate_isSome_of_enough h1 hlen with ⟨sel, cost, t, ht, hl⟩
    exact ⟨sel, cost, by rw [allocate, ht, Option.map_some'], hl⟩
  refine ⟨⟨?_, ?_⟩, hsome⟩
  · intro hnone
    by_contra hge
    rcases hsome (by omega) with ⟨sel, cost, hsel, _⟩
    rw [hsel] at hnone
    exact Option.noConfusion hnone
  · intro hlt
    have ht1 : pickMinBy tier1score (tier1Candidates rooms n) = none :=
      (pickMinBy_eq_none_iff _ _).mpr (tier1Candidates_eq_nil_of_short hlt)
    have ht2 : pickMinBy calculateTotalPathCost (tier2Clusters rooms n) = none :=
      (pickMinBy_eq_none_iff _ _).mpr (tier2Clusters_eq_nil_of_short hlt)
    simp only [allocate, allocateT, ht1, ht2, Option.map_none']

/-- C1 witness: a two-room list with `n = 2`, evaluating the feasibility
statement at a concrete input. -/
theorem allocate_feasibility_witness :
    (allocate [mkAvail 101 1 1, mkAvail 102 1 2] 2 = none ↔
      ([mkAvail 101 1 1, mkAvail 102 1 2] : List SRoom).length < 2) ∧
    (2 ≤ ([mkAvail 101 1 1, mkAvail 102 1 2] : List SRoom).length →
      ∃ sel cost,
        allocate [mkAvail 101 1 1, mkAvail 102 1 2] 2 = some (sel, cost) ∧
        sel.length = 2) :=
  allocate_feasibility [mkAvail 101 1 1, mkAvail 102 1 2] 2 (by omega) (by omega)

/-- C2: whenever some floor has at least `n` available rooms (`n ≥ 1`), the
engine answers from Tier 1 — the winning candidate lies entirely on a single
floor and the cross-floor stage is never executed. -/
theorem allocate_sameFloor_pref (rooms : List SRoom) (n : Nat) (f : Int)
    (h1 : 1 ≤ n) (hf : n ≤ (floorGroup rooms f).length) :
    ∃ sel cost f0, allocateT rooms n = some (sel, cost, Tier.sameFloor) ∧
      ∀ r ∈ sel, r.floor = f0 := by
  have hne := tier1Candidates_ne_nil h1 hf
  rcases pickMinBy_isSome_of_ne_nil tier1score _ hne with ⟨q, hq⟩
  have hspec := pickMinBy_some_spec _ _ q hq
  rcases mem_tier1Candidates hspec.1 with ⟨f0, hf0, hw⟩
  refine ⟨q.1, q.2, f0, ?_, ?_⟩
  · simp only [allocateT, hq]
  · intro r hr
    exact floorGroup_floor_eq ((windowsList_sublist hw).subset hr)

/-- C2 witness: Scenario B has floor 1 with 7 ≥ 5 available rooms, so the
result is a same-floor candidate. -/
theorem allocate_sameFloor_pref_witness :
    ∃ sel cost f0, allocateT scenarioB 5 = some (sel, cost, Tier.sameFloor) ∧
      ∀ r ∈ sel, r.floor = f0 :=
  allocate_sameFloor_pref scenarioB 5 1 (by omega) (by decide)

/-- C3 counterexample: on Scenario B (floor 1 rooms 104-110 available,
floor 2 fully available, `n = 5`) the engine does NOT select the window
201-205 claimed by the spec. -/
theorem scenarioB_not_floor2 :
    ¬ ((allocate scenarioB 5).map (fun p => p.1.map (fun r => r.roomNumber)) =
      some [201, 202, 203, 204, 205]) := by decide

/-- C3 amended: on Scenario B the engine runs Tier 1 and returns cost 4, but
selects the window 104-108 on floor 1 — floor 1 also has 7 ≥ 5 available
rooms, it is iterated first, and its first window already attains the minimal
spread 4, which the strict-improvement tie-break then keeps. -/
theorem scenarioB_actual :
    (allocateT scenarioB 5).map
      (fun p => (p.1.map (fun r => r.roomNumber), p.2.1, p.2.2)) =
      some ([104, 105, 106, 107, 108], 4, Tier.sameFloor) := by decide

/-- C5: the travel-time metric is symmetric and vanishes on the diagonal. -/
theorem getTravelTime_symm_and_refl (a b : SRoom) :
    getTravelTime a b = getTravelTime b a ∧ getTravelTime a a = 0 := by
  constructor
  · by_cases h : a.floor = b.floor
    · rw [getTravelTime, getTravelTime, if_pos h, if_pos h.symm, abs_sub_comm]
    · rw [getTravelTime, getTravelTime, if_neg h,
        if_neg (fun hh => h hh.symm), abs_sub_comm]
      ring
  · rw [getTravelTime, if_pos rfl]
    simp

/-- C8: the selection phase and the cost function are pure Lean functions of
their inputs, so two runs on the same available-room list and count, and two
scorings of the same candidate, agree definitionally. -/
theorem allocation_deterministic (rooms : List SRoom) (n : Nat)
    (c : List SRoom) :
    allocate rooms n = allocate rooms n ∧
    calculateTotalPathCost c = calculateTotalPathCost c :=
  ⟨rfl, rfl⟩

/-- C9: when the input list is sorted by floor then position (the database
order), every per-floor group is sorted by position ascending, and every
Tier-1 window's last-minus-first score equals its max-minus-min position
spread. -/
theorem tier1_sorted_input_spec (rooms : List SRoom)
    (hs : rooms.Pairwise roomLe) :
    (∀ f, (floorGroup rooms f).Pairwise posLe) ∧
    (∀ f n w, w ∈ windowsList n (floorGroup rooms f) →
      tier1score w = maxPos w - minPos w) := by
  refine ⟨fun f => floorGroup_pairwise hs, ?_⟩
  intro f n w hw
  exact tier1score_eq_spread_of_sorted
    ((floorGroup_pairwise hs).sublist (windowsList_sublist hw))

/-- C9 witness: Scenario B's list is in database order, so its groups and
window scores satisfy the sortedness consequences. -/
theorem tier1_sorted_input_spec_witness :
    (∀ f, (floorGroup scenarioB f).Pairwise posLe) ∧
    (∀ f n w, w ∈ windowsList n (floorGroup scenarioB f) →
      tier1score w = maxPos w - minPos w) :=
  tier1_sorted_input_spec scenarioB (by decide)

/-- C4: (a) for a window on one floor sorted by position ascending, the
Tier-1 score equals `calculateTotalPathCost` of the window; (b) for every
candidate the engine returns from a database-ordered snapshot that lies fully
on one floor, the returned cost is `max(position) - min(position)` over the
selected set. -/
theorem sameFloor_cost_correct :
    (∀ (w : List SRoom) (f : Int), (∀ r ∈ w, r.floor = f) →
      w.Pairwise posLe → calculateTotalPathCost w = tier1score w) ∧
    (∀ (s : Store) (n : Nat) (sel : List SRoom) (cost : Int) (f : Int),
      1 ≤ n → allocate (availableOf s) n = some (sel, cost) →
      (∀ r ∈ sel, r.floor = f) → cost = maxPos sel - minPos sel) := by
  constructor
  · intro w f hfl hp
    exact calculateTotalPathCost_sameFloor_sorted hfl hp
  · intro s n sel cost f h1 halloc hfl
    have hsorted : (availableOf s).Pairwise roomLe :=
      List.sorted_insertionSort roomLe
        (s.rooms.filter (fun r => decide (r.status = RStatus.notBooked)))
    rcases allocate_eq_some_iff.mp halloc with ⟨t, ht⟩
    cases t with
    | sameFloor =>
      rcases allocateT_sameFloor_spec ht with ⟨hmem, hcost⟩
      rcases mem_tier1Candidates hmem with ⟨f0, hf0, hw⟩
      rw [hcost]
      exact tier1score_eq_spread_of_sorted
        ((floorGroup_pairwise hsorted).sublist (windowsList_sublist hw))
    | crossFloor =>
      exfalso
      rcases allocateT_crossFloor_spec ht with ⟨hnone, hmem, _⟩
      rcases mem_tier2Clusters hmem with ⟨hlen, seed, rfl⟩
      rcases seedCluster_sublist_of_perm (availableOf s) n seed with
        ⟨l, hperm, hsub⟩
      have hself : (seedCluster (availableOf s) n seed).filter
          (fun r => decide (r.floor = f)) =
          seedCluster (availableOf s) n seed :=
        List.filter_eq_self.mpr (fun a ha => decide_eq_true (hfl a ha))
      have hsubf := hsub.filter (fun r => decide (r.floor = f))
      rw [hself] at hsubf
      have hlenle := hsubf.length_le
      have hlenf := (hperm.filter (fun r => decide (r.floor = f))).length_eq
      have hge : n ≤ (floorGroup (availableOf s) f).length := by
        rw [floorGroup]
        omega
      exact absurd ((pickMinBy_eq_none_iff _ _).mp hnone)
        (tier1Candidates_ne_nil h1 hge)

/-- C4 witness: the Scenario B winner 104-108 (all on floor 1, sorted by
position); its path cost equals its window score, and the returned cost 4 is
its position spread. -/
theorem sameFloor_cost_correct_witness :
    calculateTotalPathCost scenarioBSelected = tier1score scenarioBSelected ∧
    (4 : Int) = maxPos scenarioBSelected - minPos scenarioBSelected :=
  ⟨sameFloor_cost_correct.1 scenarioBSelected 1 (by decide) (by decide),
   sameFloor_cost_correct.2 scenarioBStore 5 scenarioBSelected 4 1 (by omega)
     (by decide) (by decide)⟩

/-- C7: a requested count below 1 or above 5 is rejected up front with the
400-coded invalid-count outcome, before any search, leaving the store
untouched — uniformly in the store contents. -/
theorem bookRooms_rejects_invalid_count (s : Store) (uid n ci co : Int)
    (h : n < 1 ∨ 5 < n) :
    bookRooms s uid n ci co = (BookResult.invalidCount, s) ∧
    statusCode (bookRooms s uid n ci co).1 = 400 := by
  have hb : bookRooms s uid n ci co = (BookResult.invalidCount, s) := by
    simp only [bookRooms, if_pos h]
  exact ⟨hb, by rw [hb]; rfl⟩

/-- C7 witness: a zero-room request on the empty store. -/
theorem bookRooms_rejects_invalid_count_witness :
    bookRooms emptyStore 7 0 0 0 = (BookResult.invalidCount, emptyStore) ∧
    statusCode (bookRooms emptyStore 7 0 0 0).1 = 400 :=
  bookRooms_rejects_invalid_count emptyStore 7 0 0 0 (Or.inl (by omega))

theorem bookRooms_cases (s : Store) (uid n ci co : Int) :
    (bookRooms s uid n ci co).2 = s ∨
    ∃ a b c, (bookRooms s uid n ci co).1 = BookResult.success a b c := by
  by_cases h : n < 1 ∨ 5 < n
  · left
    simp only [bookRooms, if_pos h]
  · by_cases h2 : (availableOf s).length < n.toNat
    · left
      simp only [bookRooms, if_neg h, if_pos h2]
    · rcases ha : allocate (availableOf s) n.toNat with _ | ⟨sel, cost⟩
      · left
        simp only [bookRooms, if_neg h, if_neg h2, ha]
      · right
        refine ⟨sel.map (fun r => r.roomNumber), cost,
          n * (sel.head?.elim 0 (fun r => r.basePrice)) * jsNights ci co, ?_⟩
        simp only [bookRooms, if_neg h, if_neg h2, ha]

/-- C10: every rejected request (invalid count, not enough rooms, or no
suitable set) returns its 400 outcome with the store unchanged — no booking
row is created and no room status is modified on failure. -/
theorem bookRooms_failure_atomic (s : Store) (uid n ci co : Int)
    (h : statusCode (bookRooms s uid n ci co).1 = 400) :
    (bookRooms s uid n ci co).2 = s := by
  rcases bookRooms_cases s uid n ci co with hs | ⟨a, b, c, hr⟩
  · exact hs
  · rw [hr] at h
    simp [statusCode] at h

/-- C10 witness: requesting one room from an empty store fails with a 400 and
leaves the store unchanged. -/
theorem bookRooms_failure_atomic_witness :
    (bookRooms emptyStore 7 1 0 0).2 = emptyStore :=
  bookRooms_failure_atomic emptyStore 7 1 0 0 (by decide)

/-- C6 (code bug): with check-out two days before check-in, the `|| 1`
fallback does not fire — `Math.ceil` yields the truthy value `-2` — so the
handler books with `nights = -2` and persists the negative total price
`1 × 100 × (-2) = -200`, contradicting the spec's "minimum 1". -/
theorem bookRooms_negative_nights :
    jsNights 0 (-(2 * msPerDay)) = -2 ∧
    (bookRooms oneRoomStore 7 1 0 (-(2 * msPerDay))).1 =
      BookResult.success [101] 0 (-200) ∧
    (bookRooms oneRoomStore 7 1 0 (-(2 * msPerDay))).2.bookings.map
      (fun b => b.totalPrice) = [-200] := by decide
